import Mathlib

/-!
Verification of the regulink pipeline (Harvester / Refiner / Analyst)
against its natural-language specification.  The Python agents are shallowly
embedded: pure string predicates become Lean functions, the stateful agent
loops become explicit state-passing recursion, network and engine effects
become deterministic oracles passed as arguments, and raised exceptions
become `Except` values.
-/

namespace Regulink

/-! ## Python string helpers -/

/-- A word character in the sense of the regex word-boundary anchor:
letters, digits and underscore (inputs here are ASCII). -/
def isWordChar (c : Char) : Bool := c.isAlphanum || c == '_'

/-- Python `str.lower` for the ASCII strings handled here, as a char list. -/
def lowerChars (s : String) : List Char := s.data.map Char.toLower

/-- The slice of `s` starting at index `i` begins with `t`. -/
def substrAt (s t : List Char) (i : Nat) : Bool := (s.drop i).take t.length == t

/-- Python `t in s` substring containment. -/
def containsSub (s t : List Char) : Bool :=
  (List.range (s.length + 1)).any (fun i => substrAt s t i)

/-- Position `i` of `s` is not a word character (or is out of range):
the neighbour test of a regex word boundary. -/
def nonWordAt (s : List Char) (i : Nat) : Bool :=
  match s[i]? with
  | some c => !isWordChar c
  | none => true

/-- Token `t` occurs at position `i` of `s` with a word boundary on both
sides, as for a regex alternative wrapped in a pair of word-boundary
anchors. -/
def wordTokenAt (s t : List Char) (i : Nat) : Bool :=
  substrAt s t i && (i == 0 || nonWordAt s (i - 1)) && nonWordAt s (i + t.length)

/-- agent_2_refiner.py line 89: the success tokens of the Refiner's status
regex alternation. -/
def SUCCESS_TOKENS : List (List Char) :=
  ["success".data, "rss ok".data, "scrape ok".data]

/-- agent_2_refiner.py line 89: the Refiner's success predicate on a row's
Notes column — a case-insensitive regex search for one of the success
tokens between word boundaries. -/
def statusMatches (status : String) : Bool :=
  let s := lowerChars status
  (List.range (s.length + 1)).any (fun i => SUCCESS_TOKENS.any (fun t => wordTokenAt s t i))

/-! ## Tenacity retry

Both agents wrap fallible calls with a tenacity retry decorator configured
with a stop-after-attempt bound: the wrapped function is invoked again only
when the previous attempt raised, until the attempt bound is reached, and
then the last exception propagates.  The wrapped call is modelled as a
function of the attempt number, and the wrapper returns the final outcome
together with the number of attempts actually made. -/

/-- One retry loop step: `remaining` further attempts are allowed after the
current one, `attempt` is the current (1-based) attempt number. -/
def tenacityGo {α : Type} (f : Nat → Except String α) :
    Nat → Nat → Except String α × Nat
  | remaining, attempt =>
    match f attempt, remaining with
    | Except.ok a, _ => (Except.ok a, attempt)
    | Except.error e, 0 => (Except.error e, attempt)
    | Except.error _, r + 1 => tenacityGo f r (attempt + 1)

/-- tenacity `retry(stop=stop_after_attempt(maxAttempts))`: run `f`,
re-running it only when it raises, for at most `maxAttempts` attempts. -/
def tenacityRetry {α : Type} (f : Nat → Except String α) (maxAttempts : Nat) :
    Except String α × Nat :=
  match maxAttempts with
  | 0 => (Except.error "no attempts", 0)
  | n + 1 => tenacityGo f n 1

/-! ## Harvester: `_fetch_rss` (agent_1_harvester.py lines 158-169) -/

/-- One entry of a parsed feed; only the title is consumed. -/
structure FeedEntry where
  title : String
deriving DecidableEq

/-- A parsed feedparser result: its entry list and, when the transport
reported one, the HTTP status. -/
structure Feed where
  entries : List FeedEntry
  status : Option Nat
deriving DecidableEq

/-- agent_1_harvester.py `_fetch_rss` body (one attempt): if the feed has no
entries, raise — mentioning the HTTP status when one is present and at
least 400; otherwise return the first entry's title. -/
def fetch_rss (feed : Feed) : Except String String :=
  match feed.entries with
  | [] =>
    match feed.status with
    | some s =>
      if 400 ≤ s then Except.error ("HTTP " ++ toString s ++ " Error fetching RSS")
      else Except.error "RSS parsed but found no entries (Empty Feed)."
    | none => Except.error "RSS parsed but found no entries (Empty Feed)."
  | e :: _ => Except.ok e.title

/-! ## Refiner: `_download_content` (agent_2_refiner.py lines 145-172)

The body first calls `trafilatura.fetch_url`; when that yields nothing it
falls back to `requests.get` plus `raise_for_status`; the downloaded markup
is passed to `trafilatura.extract`; a non-empty extraction is stripped and
returned, anything else yields None.  Every exception anywhere in the body
is caught by the trailing catch-all, which logs and returns None. -/

/-- Outcome of one external call: a value, or a raised exception. -/
inductive NetResult (α : Type) where
  | ok (a : α)
  | exn (msg : String)
deriving DecidableEq

/-- The environment one download attempt runs against: the result of
`trafilatura.fetch_url` (None when it yields nothing), the result of
`requests.get` (HTTP status and body), and `trafilatura.extract` on
downloaded markup (None when extraction finds nothing). -/
structure DownloadEnv where
  fetch_url : NetResult (Option String)
  requests_get : NetResult (Nat × String)
  extract : String → Option String

/-- The inner code of `_download_content` before the catch-all: any raised
exception surfaces as an `Except.error`. -/
def download_body_raw (env : DownloadEnv) : Except String (Option String) :=
  match env.fetch_url with
  | NetResult.exn m => Except.error m
  | NetResult.ok fetched =>
    let downloaded : Except String String :=
      match fetched with
      | some d => Except.ok d
      | none =>
        match env.requests_get with
        | NetResult.exn m => Except.error m
        | NetResult.ok (st, body) =>
          if 400 ≤ st then Except.error ("HTTPError " ++ toString st) else Except.ok body
    match downloaded with
    | Except.error m => Except.error m
    | Except.ok d =>
      match env.extract d with
      | some text => if text == "" then Except.ok none else Except.ok (some text.trim)
      | none => Except.ok none

/-- `_download_content`'s body as actually observable: the trailing
catch-all turns every raised exception into a plain None return. -/
def download_body (env : DownloadEnv) : Except String (Option String) :=
  match download_body_raw env with
  | Except.error _ => Except.ok none
  | r => r

/-- `_download_content` with its tenacity decorator
`retry(stop=stop_after_attempt(2), wait=wait_fixed(2))`: at most two
attempts, re-attempting only on a raised exception.  Returns the final
outcome and the number of attempts made. -/
def download_content (envs : Nat → DownloadEnv) : Except String (Option String) × Nat :=
  tenacityRetry (fun n => download_body (envs n)) 2

/-! ## Refiner: URL validation (agent_2_refiner.py lines 52-58)

`is_valid_url` parses with `urllib.parse.urlparse` and requires both a
scheme and a netloc.  The parse is modelled from CPython's urlsplit: a
scheme is a leading-alpha run of scheme characters before the first colon,
and the netloc follows a double slash, running up to the next slash,
question mark or hash. -/

/-- Characters allowed in a URL scheme (CPython `scheme_chars`). -/
def scheme_chars (c : Char) : Bool :=
  c.isAlpha || c.isDigit || c == '+' || c == '-' || c == '.'

/-- Split a char list at its first colon, if any. -/
def splitAtColon : List Char → Option (List Char × List Char)
  | [] => none
  | c :: cs =>
    if c == ':' then some ([], cs)
    else
      match splitAtColon cs with
      | some (pre, post) => some (c :: pre, post)
      | none => none

/-- Peel a valid scheme off a URL: the part before the first colon when it
is non-empty, starts with a letter, and consists of scheme characters;
otherwise no scheme. -/
def splitScheme (url : List Char) : List Char × List Char :=
  match splitAtColon url with
  | some (pre, post) =>
    match pre with
    | [] => ([], url)
    | c :: cs =>
      if c.isAlpha && (c :: cs).all scheme_chars
      then ((c :: cs).map Char.toLower, post)
      else ([], url)
  | none => ([], url)

/-- The netloc of the remainder after the scheme: present only after a
double slash, ending at the next slash, question mark or hash. -/
def netlocOf (rest : List Char) : List Char :=
  match rest with
  | '/' :: '/' :: r => r.takeWhile (fun c => !(c == '/' || c == '?' || c == '#'))
  | _ => []

/-- agent_2_refiner.py `is_valid_url`: scheme and netloc both non-empty. -/
def is_valid_url (url : String) : Bool :=
  let (scheme, rest) := splitScheme url.data
  !scheme.isEmpty && !(netlocOf rest).isEmpty

/-! ## Refiner: content store and `process_url`
(agent_2_refiner.py lines 60-143)

The processed-content directory is a content-addressed store keyed by
`get_url_hash` (the MD5 hex digest of the URL).  MD5 itself is not
re-implemented; every definition is parametric in a deterministic
`urlHash : String → String`, which is all the claims depend on.  The
network is a deterministic oracle `download : String → Option String`
giving the per-URL result of `_download_content` (whose single-attempt
behaviour is established separately).  Performed downloads are recorded in
a trace so that "performs no download" is expressible. -/

/-- One saved processed-content JSON file (agent_2_refiner.py lines 126-131). -/
structure RawDocument where
  source : String
  url : String
  downloaded_at : String
  content_clean : String
deriving DecidableEq

/-- The processed-content directory: files keyed by URL hash. -/
abbrev Store := List (String × RawDocument)

/-- `os.path.exists` on the store: a file with this hash is present. -/
def storeContains : Store → String → Bool
  | [], _ => false
  | p :: rest, h => p.1 = h || storeContains rest h

/-- A row of the source registry as the Refiner reads it. -/
structure SourceRow where
  sourceName : String
  url : String
  notes : String

/-- Refiner state: the content store plus the trace of download attempts. -/
structure RefinerState where
  store : Store
  downloads : List String
deriving DecidableEq

/-- agent_2_refiner.py `process_url`: hash the URL; if a file already
exists at that address, return unchanged; otherwise download, discard
empty or short content, and persist the cleaned text as a RawDocument. -/
def process_url (urlHash : String → String) (download : String → Option String)
    (now : String) (st : RefinerState) (url source : String) : RefinerState :=
  let h := urlHash url
  if storeContains st.store h then st
  else
    let st1 : RefinerState := { st with downloads := st.downloads ++ [url] }
    match download url with
    | none => st1
    | some content =>
      if content == "" || content.length < 50 then st1
      else { st1 with store := st1.store ++ [(h, ⟨source, url, now, content⟩)] }

/-- One iteration of the Refiner's registry scan (agent_2_refiner.py lines
82-100): only rows whose Notes match the success regex and whose URL is
valid are processed. -/
def refinerStep (urlHash : String → String) (download : String → Option String)
    (now : String) (st : RefinerState) (row : SourceRow) : RefinerState :=
  if statusMatches row.notes then
    if is_valid_url row.url then process_url urlHash download now st row.url row.sourceName
    else st
  else st

/-- The Refiner's registry scan over all rows, in order. -/
def runRefiner (urlHash : String → String) (download : String → Option String)
    (now : String) : List SourceRow → RefinerState → RefinerState
  | [], st => st
  | row :: rest, st =>
    runRefiner urlHash download now rest (refinerStep urlHash download now st row)

/-! ## Analyst: JSON objects and Python dict merge
(agent_3_analyst.py lines 143-149)

The record written by the Analyst is a Python dict literal
`\x7b**data, **analysis, "analyzed_at": ..., "engine": ENGINE\x7d`: keys of a
later source overwrite an earlier occurrence in place, new keys append. -/

/-- A JSON value as far as the pipeline inspects one (the only arrays in
play are the tag lists, whose elements are strings). -/
inductive JVal where
  | str (s : String)
  | num (n : Int)
  | arr (xs : List String)
deriving DecidableEq

/-- A JSON object: an association list with insertion order, as a Python
dict. -/
abbrev Dict := List (String × JVal)

/-- Python `k in d`: a linear scan over the keys. -/
def dictContains : Dict → String → Bool
  | [], _ => false
  | p :: rest, k => p.1 = k || dictContains rest k

/-- Python `d.get(k)`: value at the first occurrence of `k`, if any. -/
def dictGet : Dict → String → Option JVal
  | [], _ => none
  | p :: rest, k => if p.1 = k then some p.2 else dictGet rest k

/-- Python `d[k] = v`: overwrite in place when present, else append. -/
def dictInsert (d : Dict) (k : String) (v : JVal) : Dict :=
  if dictContains d k then d.map (fun p => if p.1 = k then (k, v) else p)
  else d ++ [(k, v)]

/-- Python dict unpacking merge: fold the entries of `b` into `a`. -/
def dictMerge (a b : Dict) : Dict :=
  b.foldl (fun acc p => dictInsert acc p.1 p.2) a

/-- agent_3_analyst.py lines 144-149: the persisted full report object —
the raw document's fields, the engine's analysis unpacked over them, then
the Analyst's own `analyzed_at` and `engine` fields. -/
def mergeRecord (data analysis : Dict) (analyzedAt engineName : String) : Dict :=
  dictInsert (dictInsert (dictMerge data analysis) "analyzed_at" (JVal.str analyzedAt))
    "engine" (JVal.str engineName)

/-! ## Analyst: filters and run loop (agent_3_analyst.py lines 40-164) -/

/-- agent_3_analyst.py lines 42-58: phrases marking a bot-block page. -/
def BLOCK_PHRASES : List String :=
  ["access denied", "security check", "challenge-response", "verify you are human",
   "cloudflare", "403 forbidden", "suspected bot activity", "enable javascript",
   "captcha", "unusual traffic", "access to this page has been denied", "vpn/proxy",
   "malicious activity detected", "malicious behavior detected"]

/-- agent_3_analyst.py line 123: some block phrase occurs in the lowered
content. -/
def isBlocked (content : String) : Bool :=
  BLOCK_PHRASES.any (fun p => containsSub (lowerChars content) p.data)

/-- agent_3_analyst.py line 113: `data.get('content_clean', '')` (the
stored field is a string when present). -/
def getContent (data : Dict) : String :=
  match dictGet data "content_clean" with
  | some (JVal.str s) => s
  | _ => ""

/-- agent_3_analyst.py line 139: the fields every engine answer must have. -/
def requiredKeys : List String := ["summary", "impact_score", "tags", "date"]

/-- The intelligence directory: classification records keyed by filename. -/
abbrev IntelStore := List (String × Dict)

/-- `os.path.exists` plus load on the intelligence store. -/
def intelLookup : IntelStore → String → Option Dict
  | [], _ => none
  | p :: rest, filename => if p.1 = filename then some p.2 else intelLookup rest filename

/-- Analyst state: the intelligence store, the trace of engine
invocations, the missing-field warnings issued, and the in-memory results
list that feeds the report. -/
structure AnalystState where
  intel : IntelStore
  engineCalls : List String
  warnings : List String
  results : List Dict
deriving DecidableEq

/-- One iteration of the Analyst's loop (agent_3_analyst.py lines 92-162)
over a processed file, given as its filename and its parsed JSON (`none`
for a corrupted file).  The engine is a deterministic oracle from content
and attempt number; its tenacity decorator allows three attempts. -/
def analystStep (engine : String → Nat → Except String Dict) (now engineName : String)
    (st : AnalystState) (file : String × Option Dict) : AnalystState :=
  match intelLookup st.intel file.1 with
  | some rec => { st with results := st.results ++ [rec] }
  | none =>
    match file.2 with
    | none => st
    | some data =>
      let content := getContent data
      if content == "" || content.length < 100 then st
      else if isBlocked content then st
      else
        let st1 : AnalystState := { st with engineCalls := st.engineCalls ++ [file.1] }
        match (tenacityRetry (engine content) 3).1 with
        | Except.error _ => st1
        | Except.ok analysis =>
          let st2 : AnalystState :=
            if requiredKeys.all (fun k => dictContains analysis k) then st1
            else { st1 with warnings := st1.warnings ++ [file.1] }
          let full := mergeRecord data analysis now engineName
          { st2 with
            intel := st2.intel ++ [(file.1, full)],
            results := st2.results ++ [full] }

/-- The Analyst's loop over all processed files, in order. -/
def analystFold (engine : String → Nat → Except String Dict) (now engineName : String) :
    List (String × Option Dict) → AnalystState → AnalystState
  | [], st => st
  | f :: rest, st =>
    analystFold engine now engineName rest (analystStep engine now engineName st f)

/-- One Analyst run: start from the on-disk intelligence store with fresh
in-memory traces and fold the loop over the files. -/
def analystRun (engine : String → Nat → Except String Dict) (now engineName : String)
    (files : List (String × Option Dict)) (intel0 : IntelStore) : AnalystState :=
  analystFold engine now engineName files
    { intel := intel0, engineCalls := [], warnings := [], results := [] }

/-! ## Report Aggregator (agent_3_analyst.py `_generate_csv_report`,
lines 166-180)

Row ordering of the report: when any record carries an `impact_score`
column, rows are sorted by that score descending with score-less rows
(NaN in the frame) placed last, which is pandas
`sort_values(by='impact_score', ascending=False)` with its default
`na_position='last'`; the sort itself is modelled by insertion sort, a
correct sort for the same total preorder.  With no records at all, no
report is written. -/

/-- The impact score of a record, when it has an integer one. -/
def scoreKey (d : Dict) : Option Int :=
  match dictGet d "impact_score" with
  | some (JVal.num n) => some n
  | _ => none

/-- Descending-by-score comparison with score-less records last. -/
def reportOrderB (a b : Dict) : Bool :=
  match scoreKey a, scoreKey b with
  | some x, some y => y ≤ x
  | some _, none => true
  | none, some _ => false
  | none, none => true

/-- The report row order as a relation. -/
def reportOrder (a b : Dict) : Prop := reportOrderB a b = true

instance : DecidableRel reportOrder := fun a b =>
  inferInstanceAs (Decidable (reportOrderB a b = true))

/-- The rows of the written report: `None` when no report is produced. -/
def generate_report_rows (results : List Dict) : Option (List Dict) :=
  if results.isEmpty then none
  else if results.any (fun d => dictContains d "impact_score")
  then some (List.insertionSort reportOrder results)
  else some results

/-! ## Harvester: run loop, checkpoints and teardown
(agent_1_harvester.py lines 90-149)

The loop is modelled as a recursion over the registry rows emitting an
event trace: a `processed` event when a row's Notes are overwritten, a
`checkpoint` event for the periodic `save_data` on every fifth index, and
the teardown events.  Strategy dispatch outcomes come from a per-row,
per-attempt oracle; an exception inside a row's dispatch is caught by the
loop's inner handler and becomes a Failed status.  A fatal exception
escaping the loop at some row is modelled by `failAt`; the `finally`
block closes the browser and saves the registry in either case. -/

/-- A registry row as the Harvester reads it. -/
structure HRow where
  sourceName : String
  url : String
  strategy : String

/-- Observable persistence events of one Harvester run. -/
inductive HEvent where
  | processed (i : Nat)
  | checkpoint
  | browserStop
  | finalSave
deriving DecidableEq

/-- agent_1_harvester.py lines 112-138: dispatch one row by strategy and
produce its (status, note) pair; raised fetch errors are caught here. -/
def dispatchRow (fetch : Nat → Except String String) (strategy : String) : String × String :=
  let strat := String.mk (lowerChars strategy)
  if containsSub strat.data "rss".data then
    match (tenacityRetry fetch 2).1 with
    | Except.ok title => ("Success", "RSS OK: " ++ title.take 50 ++ "...")
    | Except.error e => ("Failed", "Error: " ++ e.take 100)
  else if containsSub strat.data "scrape".data then
    match (tenacityRetry fetch 2).1 with
    | Except.ok title => ("Success", "Scrape OK: " ++ title.take 50 ++ "...")
    | Except.error e => ("Failed", "Error: " ++ e.take 100)
  else if containsSub strat.data "api".data then
    ("Skipped", "API connector not built yet.")
  else ("Unknown Strategy", "Strategy '" ++ strat ++ "' not recognized.")

/-- agent_1_harvester.py lines 100-144: the row loop from index `i`.
Returns the notes written, the event trace, and whether a fatal exception
escaped.  Rows with an empty URL are passed over without a note or a
checkpoint; every other row gets its Notes overwritten and, on every
fifth index, a registry checkpoint. -/
def harvestLoop (fetch : Nat → Nat → Except String String) (ts : String)
    (failAt : Option Nat) : List HRow → Nat → List (Nat × String) × List HEvent × Bool
  | [], _ => ([], [], false)
  | row :: rest, i =>
    if failAt = some i then ([], [], true)
    else if row.url = "" then harvestLoop fetch ts failAt rest (i + 1)
    else
      let sn := dispatchRow (fetch i) row.strategy
      let noteStr := "[" ++ ts ++ "] " ++ sn.1 ++ " - " ++ sn.2
      let ckpt : List HEvent := if i % 5 == 0 then [HEvent.checkpoint] else []
      let r := harvestLoop fetch ts failAt rest (i + 1)
      ((i, noteStr) :: r.1, (HEvent.processed i :: (ckpt ++ r.2.1), r.2.2))

/-- agent_1_harvester.py `run` lines 99-148: the loop wrapped in
`try/finally`, whose `finally` stops the browser and then saves the
registry whether or not the loop raised. -/
def harvesterRun (fetch : Nat → Nat → Except String String) (ts : String)
    (failAt : Option Nat) (rows : List HRow) : List (Nat × String) × List HEvent × Bool :=
  let r := harvestLoop fetch ts failAt rows 0
  (r.1, (r.2.1 ++ [HEvent.browserStop, HEvent.finalSave], r.2.2))

/-! ## Settledness predicates for the idempotency arguments -/

/-- The download of a URL yields persistable content: some text that is
neither empty nor below the Refiner's minimum length. -/
def goodContent (download : String → Option String) (url : String) : Bool :=
  match download url with
  | none => false
  | some content => !(content == "" || content.length < 50)

/-- A registry row is settled with respect to a store: if the Refiner
selects it, its content address is already occupied or its download does
not yield persistable content, so processing it can only leave the store
unchanged. -/
def settledRow (urlHash : String → String) (download : String → Option String)
    (store : Store) (row : SourceRow) : Prop :=
  (statusMatches row.notes && is_valid_url row.url) = true →
    storeContains store (urlHash row.url) = true ∨
      goodContent download row.url = false

/-- The classification engine, through its three-attempt retry, fails on
this content. -/
def engineFails (engine : String → Nat → Except String Dict) (content : String) : Bool :=
  match (tenacityRetry (engine content) 3).1 with
  | Except.error _ => true
  | Except.ok _ => false

/-- A processed file is settled with respect to an intelligence store:
processing it again can only leave the store unchanged. -/
def settledFile (engine : String → Nat → Except String Dict)
    (intel : IntelStore) : String × Option Dict → Prop
  | (_, none) => True
  | (filename, some data) =>
    intelLookup intel filename ≠ none ∨
    (getContent data == "" || (getContent data).length < 100) = true ∨
    isBlocked (getContent data) = true ∨
    engineFails engine (getContent data) = true

/-! ## Claim C1 -/

/-- Claim C1, evaluated on the code: the Refiner's success predicate on a
row's status note matches "Scrape OK", but it ALSO matches "Not Success" —
the word-boundary regex finds the whole word "Success" there, against both
the claim and the code's own comment. -/
theorem C1_status_match_eval :
    statusMatches "Scrape OK" = true ∧ statusMatches "Not Success" = true := by
  decide

/-! ## Claim C2 -/

/-- Claim C2, counterexample to the claim as stated: a feed whose
transport reported HTTP status 500 (≥ 400) but which still parsed to one
entry does NOT fail — `_fetch_rss` returns the entry's title, because the
status is only consulted when the entry list is empty. -/
theorem C2_counterexample :
    fetch_rss ⟨[⟨"Latest"⟩], some 500⟩ = Except.ok "Latest" ∧ 400 ≤ 500 :=
  ⟨rfl, by decide⟩

/-- Claim C2 as amended: `_fetch_rss` raises exactly when the parsed feed
yields zero entries; when the entry list is empty and the transport
reported an HTTP status of at least 400, the raised error reports that
status; whenever the feed has at least one entry it returns the first
entry's title, regardless of any reported HTTP status. -/
theorem C2_fetch_rss_amended (feed : Feed) :
    ((∃ msg, fetch_rss feed = Except.error msg) ↔ feed.entries = []) ∧
    (∀ e rest, feed.entries = e :: rest → fetch_rss feed = Except.ok e.title) ∧
    (∀ s, feed.entries = [] → feed.status = some s → 400 ≤ s →
      fetch_rss feed = Except.error ("HTTP " ++ toString s ++ " Error fetching RSS")) := by
  obtain ⟨entries, status⟩ := feed
  cases entries with
  | nil =>
    refine ⟨⟨fun _ => rfl, fun _ => ?_⟩, fun e rest h => by simp at h, ?_⟩
    · cases status with
      | none => exact ⟨_, rfl⟩
      | some s =>
        by_cases h : 400 ≤ s
        · exact ⟨"HTTP " ++ toString s ++ " Error fetching RSS", by simp [fetch_rss, h]⟩
        · exact ⟨"RSS parsed but found no entries (Empty Feed).", by simp [fetch_rss, h]⟩
    · intro s _ hs h400
      simp only [Option.some.injEq] at hs
      subst hs
      simp [fetch_rss, h400]
  | cons e rest =>
    refine ⟨⟨?_, fun h => by simp at h⟩, ?_, fun s h => by simp at h⟩
    · rintro ⟨msg, hm⟩
      simp [fetch_rss] at hm
    · intro e' rest' h
      injection h with h1 h2
      subst h1
      rfl

/-- Claim C2 witness: the amended theorem applied at a one-entry feed, at
an empty feed, and at an empty feed whose transport reported HTTP 503 —
whose raised error names that status. -/
theorem C2_witness :
    fetch_rss ⟨[⟨"t"⟩], none⟩ = Except.ok "t" ∧
    (∃ msg, fetch_rss ⟨[], none⟩ = Except.error msg) ∧
    fetch_rss ⟨[], some 503⟩ =
      Except.error ("HTTP " ++ toString 503 ++ " Error fetching RSS") :=
  ⟨(C2_fetch_rss_amended ⟨[⟨"t"⟩], none⟩).2.1 ⟨"t"⟩ [] rfl,
   (C2_fetch_rss_amended ⟨[], none⟩).1.2 rfl,
   (C2_fetch_rss_amended ⟨[], some 503⟩).2.2 503 rfl rfl (by decide)⟩

/-! ## Claim C8 -/

/-- `_download_content`'s body can never raise: its trailing catch-all
converts every exception into a plain None return. -/
theorem download_body_isOk (env : DownloadEnv) :
    ∃ a, download_body env = Except.ok a := by
  unfold download_body
  cases h : download_body_raw env with
  | error m => exact ⟨none, rfl⟩
  | ok a => exact ⟨a, rfl⟩

/-- Claim C8, evaluated on the code: although `_download_content` carries a
two-attempt retry decorator, its catch-all `except` clause swallows every
raised exception and returns None, so the retry never fires — for every
environment (including one whose fetch raises a connection error on the
very first attempt) the download makes exactly one attempt and gives up. -/
theorem C8_download_no_retry :
    (∀ envs : Nat → DownloadEnv, (download_content envs).2 = 1) ∧
    download_content (fun _ =>
        ⟨NetResult.exn "ConnectionError", NetResult.exn "unused", fun _ => none⟩) =
      (Except.ok none, 1) := by
  constructor
  · intro envs
    obtain ⟨a, ha⟩ := download_body_isOk (envs 1)
    simp [download_content, tenacityRetry, tenacityGo, ha]
  · rfl

/-! ## Association-list lemmas for Python dict semantics -/

/-- Presence in a dict is membership of the key among the first
components. -/
theorem dictContains_iff_mem (l : Dict) (k : String) :
    dictContains l k = true ↔ k ∈ l.map Prod.fst := by
  induction l with
  | nil => simp [dictContains]
  | cons p rest ih =>
    simp only [dictContains, Bool.or_eq_true, decide_eq_true_eq, List.map_cons,
      List.mem_cons, ih]
    constructor
    · rintro (h | h)
      exacts [Or.inl h.symm, Or.inr h]
    · rintro (h | h)
      exacts [Or.inl h.symm, Or.inr h]

/-- Lookup of an absent key yields nothing. -/
theorem dictGet_eq_none (d : Dict) (k : String) (h : dictContains d k = false) :
    dictGet d k = none := by
  induction d with
  | nil => rfl
  | cons p rest ih =>
    simp only [dictContains, Bool.or_eq_false_iff, decide_eq_false_iff_not] at h
    simp only [dictGet, if_neg h.1]
    exact ih h.2

/-- Looking up the overwritten key in an in-place overwrite. -/
theorem dictGet_map_overwrite (l : Dict) (k : String) (v : JVal) :
    dictGet (l.map (fun p => if p.1 = k then (k, v) else p)) k =
      if dictContains l k then some v else none := by
  induction l with
  | nil => rfl
  | cons p rest ih =>
    by_cases h : p.1 = k
    · simp [dictGet, dictContains, h, ih]
    · simp [dictGet, dictContains, h, ih]

/-- Looking up another key in an in-place overwrite. -/
theorem dictGet_map_other (l : Dict) (k kq : String) (v : JVal) (hne : kq ≠ k) :
    dictGet (l.map (fun p => if p.1 = k then (k, v) else p)) kq = dictGet l kq := by
  induction l with
  | nil => rfl
  | cons p rest ih =>
    by_cases h : p.1 = k
    · simp [dictGet, h, Ne.symm hne, ih]
    · simp [dictGet, h, ih]

/-- Lookup across an append: the left occurrence wins. -/
theorem dictGet_append (a b : Dict) (k : String) :
    dictGet (a ++ b) k = if dictContains a k then dictGet a k else dictGet b k := by
  induction a with
  | nil => simp [dictGet, dictContains]
  | cons p rest ih =>
    by_cases h : p.1 = k
    · simp [dictGet, dictContains, h, ih]
    · simp [dictGet, dictContains, h, ih]

/-- `d[k] = v` then `d.get(k)` gives `v`. -/
theorem dictGet_insert_same (d : Dict) (k : String) (v : JVal) :
    dictGet (dictInsert d k v) k = some v := by
  unfold dictInsert
  by_cases h : dictContains d k = true
  · rw [if_pos h, dictGet_map_overwrite, if_pos h]
  · rw [if_neg h, dictGet_append, if_neg h]
    simp [dictGet]

/-- `d[k] = v` leaves every other key's lookup unchanged. -/
theorem dictGet_insert_other (d : Dict) (k kq : String) (v : JVal) (hne : kq ≠ k) :
    dictGet (dictInsert d k v) kq = dictGet d kq := by
  unfold dictInsert
  by_cases h : dictContains d k = true
  · rw [if_pos h]
    exact dictGet_map_other d k kq v hne
  · rw [if_neg h, dictGet_append]
    by_cases hq : dictContains d kq = true
    · rw [if_pos hq]
    · rw [if_neg hq, dictGet_eq_none d kq (by simpa using hq)]
      simp [dictGet, Ne.symm hne]

/-- Unfolding one step of a dict merge. -/
theorem dictMerge_cons (a : Dict) (p : String × JVal) (rest : Dict) :
    dictMerge a (p :: rest) = dictMerge (dictInsert a p.1 p.2) rest := rfl

/-- Merging entries none of which carry key `k` leaves `k`'s lookup
unchanged. -/
theorem dictGet_merge_absent (b : Dict) (a : Dict) (k : String)
    (h : dictContains b k = false) : dictGet (dictMerge a b) k = dictGet a k := by
  induction b generalizing a with
  | nil => rfl
  | cons p rest ih =>
    simp only [dictContains, Bool.or_eq_false_iff, decide_eq_false_iff_not] at h
    rw [dictMerge_cons, ih _ h.2]
    exact dictGet_insert_other a p.1 k p.2 (fun hk => h.1 hk.symm)

/-- Merging `b` over `a` makes every key of `b` read `b`'s value (for a
`b` with no duplicate keys, as a parsed JSON object is). -/
theorem dictGet_merge_present (b : Dict) (a : Dict) (k : String)
    (hnd : (b.map Prod.fst).Nodup) (h : dictContains b k = true) :
    dictGet (dictMerge a b) k = dictGet b k := by
  induction b generalizing a with
  | nil => simp [dictContains] at h
  | cons p rest ih =>
    rw [List.map_cons, List.nodup_cons] at hnd
    rw [dictMerge_cons]
    by_cases hk : p.1 = k
    · subst hk
      have hrest : dictContains rest p.1 = false := by
        cases hcb : dictContains rest p.1 with
        | false => rfl
        | true => exact absurd ((dictContains_iff_mem _ _).mp hcb) hnd.1
      rw [dictGet_merge_absent _ _ _ hrest, dictGet_insert_same]
      simp [dictGet]
    · have hr : dictContains rest k = true := by
        simpa [dictContains, hk] using h
      rw [ih _ hnd.2 hr]
      simp [dictGet, hk]

/-! ## Claim C10 -/

/-- Claim C10: the persisted classification record is the engine's answer
merged over the raw document's fields, so any key present in the engine's
answer — including one colliding with a raw-document field such as
`source`, `url`, `downloaded_at` or `content_clean` — reads the engine's
value in the record; only `analyzed_at` and `engine` are always the
Analyst's own values. -/
theorem C10_merge_precedence (data analysis : Dict) (now eng : String) (k : String)
    (hnd : (analysis.map Prod.fst).Nodup)
    (hk : dictContains analysis k = true)
    (h1 : k ≠ "analyzed_at") (h2 : k ≠ "engine") :
    dictGet (mergeRecord data analysis now eng) k = dictGet analysis k ∧
    dictGet (mergeRecord data analysis now eng) "analyzed_at" = some (JVal.str now) ∧
    dictGet (mergeRecord data analysis now eng) "engine" = some (JVal.str eng) := by
  unfold mergeRecord
  refine ⟨?_, ?_, ?_⟩
  · rw [dictGet_insert_other _ _ _ _ h2, dictGet_insert_other _ _ _ _ h1,
      dictGet_merge_present analysis data k hnd hk]
  · rw [dictGet_insert_other _ _ _ _ (by decide : ("analyzed_at" : String) ≠ "engine"),
      dictGet_insert_same]
  · rw [dictGet_insert_same]

/-- Claim C10 witness: a concrete engine answer whose `source` key collides
with the raw document's `source` field wins the collision, while
`analyzed_at` and `engine` are the Analyst's. -/
theorem C10_witness :
    dictGet (mergeRecord [("source", JVal.str "Doc"), ("url", JVal.str "u")]
        [("source", JVal.str "FromEngine"), ("summary", JVal.str "s")] "T1" "MOCK") "source" =
      dictGet [("source", JVal.str "FromEngine"), ("summary", JVal.str "s")] "source" ∧
    dictGet (mergeRecord [("source", JVal.str "Doc"), ("url", JVal.str "u")]
        [("source", JVal.str "FromEngine"), ("summary", JVal.str "s")] "T1" "MOCK") "analyzed_at" =
      some (JVal.str "T1") ∧
    dictGet (mergeRecord [("source", JVal.str "Doc"), ("url", JVal.str "u")]
        [("source", JVal.str "FromEngine"), ("summary", JVal.str "s")] "T1" "MOCK") "engine" =
      some (JVal.str "MOCK") :=
  C10_merge_precedence _ _ _ _ _ (by decide) (by decide) (by decide) (by decide)

/-! ## Claim C5 -/

/-- Claim C5: a raw document whose text contains a blocklisted phrase is
never passed to the classification engine and gets no classification
record written, whatever the text's length — every branch the step can
take on such a file leaves both the intelligence store and the
engine-call trace unchanged. -/
theorem C5_blocklist_no_engine (engine : String → Nat → Except String Dict)
    (now eng : String) (st : AnalystState) (filename : String) (data : Dict)
    (hblock : isBlocked (getContent data) = true) :
    (analystStep engine now eng st (filename, some data)).intel = st.intel ∧
    (analystStep engine now eng st (filename, some data)).engineCalls = st.engineCalls := by
  unfold analystStep
  cases hl : intelLookup st.intel filename with
  | some rec => exact ⟨rfl, rfl⟩
  | none =>
    by_cases hlen : (getContent data == "" || (getContent data).length < 100) = true
    · simp [hlen]
    · simp [hlen, hblock]

/-- Claim C5 witness: a short blocked page (a captcha interstitial) is
dropped with no engine call and no record. -/
theorem C5_witness :
    (analystStep (fun _ _ => Except.ok []) "T" "MOCK" ⟨[], [], [], []⟩
        ("f.json", some [("content_clean", JVal.str "please solve the captcha now")])).intel
      = [] ∧
    (analystStep (fun _ _ => Except.ok []) "T" "MOCK" ⟨[], [], [], []⟩
        ("f.json", some [("content_clean", JVal.str "please solve the captcha now")])).engineCalls
      = [] :=
  C5_blocklist_no_engine (fun _ _ => Except.ok []) "T" "MOCK" ⟨[], [], [], []⟩
    "f.json" [("content_clean", JVal.str "please solve the captcha now")] (by decide)

/-! ## Claim C9 -/

/-- Claim C9: when the engine call succeeds but the answer lacks one of
the required fields (summary, impact_score, tags, date), the Analyst
records a warning yet still persists the partial merged record and adds
it to the results — the batch continues instead of aborting. -/
theorem C9_partial_persisted (engine : String → Nat → Except String Dict)
    (now eng : String) (st : AnalystState) (filename : String) (data analysis : Dict)
    (hnew : intelLookup st.intel filename = none)
    (hlen : (getContent data == "" || (getContent data).length < 100) = false)
    (hblock : isBlocked (getContent data) = false)
    (hok : (tenacityRetry (engine (getContent data)) 3).1 = Except.ok analysis)
    (hmiss : requiredKeys.all (fun k => dictContains analysis k) = false) :
    analystStep engine now eng st (filename, some data) =
      { st with
        engineCalls := st.engineCalls ++ [filename],
        warnings := st.warnings ++ [filename],
        intel := st.intel ++ [(filename, mergeRecord data analysis now eng)],
        results := st.results ++ [mergeRecord data analysis now eng] } := by
  simp [analystStep, hnew, hlen, hblock, hok, hmiss]

/-- Claim C9 witness: a concrete 100-character document and an engine
answer containing only a summary is still persisted, with a warning. -/
theorem C9_witness :
    analystStep (fun _ _ => Except.ok [("summary", JVal.str "s")]) "T" "MOCK"
        ⟨[], [], [], []⟩
        ("f.json", some [("content_clean", JVal.str (String.mk (List.replicate 100 'a')))]) =
      { intel := [("f.json",
          mergeRecord [("content_clean", JVal.str (String.mk (List.replicate 100 'a')))]
            [("summary", JVal.str "s")] "T" "MOCK")],
        engineCalls := ["f.json"], warnings := ["f.json"],
        results := [mergeRecord [("content_clean", JVal.str (String.mk (List.replicate 100 'a')))]
          [("summary", JVal.str "s")] "T" "MOCK"] } := by
  have h := C9_partial_persisted (fun _ _ => Except.ok [("summary", JVal.str "s")]) "T" "MOCK"
    ⟨[], [], [], []⟩ "f.json"
    [("content_clean", JVal.str (String.mk (List.replicate 100 'a')))]
    [("summary", JVal.str "s")] rfl (by decide) (by decide) rfl (by decide)
  simpa using h

/-! ## Claim C6 -/

instance : IsTotal Dict reportOrder := by
  constructor
  intro a b
  unfold reportOrder reportOrderB
  cases ha : scoreKey a <;> cases hb : scoreKey b <;> simp
  omega

instance : IsTrans Dict reportOrder := by
  constructor
  intro a b c hab hbc
  unfold reportOrder reportOrderB at hab hbc ⊢
  cases ha : scoreKey a <;> cases hb : scoreKey b <;> cases hc : scoreKey c <;>
    rw [ha, hb] at hab <;> rw [hb, hc] at hbc <;> simp_all
  omega

/-- A record with no integer impact score reads `none`. -/
theorem scoreKey_eq_none (d : Dict) (h : dictContains d "impact_score" = false) :
    scoreKey d = none := by
  unfold scoreKey
  rw [dictGet_eq_none d _ h]

/-- Score-descending pairwise order holds vacuously over records none of
which has a score. -/
theorem pairwise_score_of_none (l : List Dict)
    (h : ∀ d ∈ l, scoreKey d = none) :
    l.Pairwise (fun a b => ∀ x y, scoreKey a = some x → scoreKey b = some y → y ≤ x) := by
  induction l with
  | nil => exact List.Pairwise.nil
  | cons d rest ih =>
    refine List.Pairwise.cons ?_ (ih fun x hx => h x (List.mem_cons_of_mem _ hx))
    intro b _ x y hx
    rw [h d (List.mem_cons_self _ _)] at hx
    exact absurd hx (by simp)

/-- Claim C6: the report rows are sorted by impact score descending — in
every written report a row with a higher score precedes every row with a
lower one, and the concrete scores [3, 9, 0, 7] come out as
[9, 7, 3, 0]. -/
theorem C6_report_sorted :
    (∀ results rows, generate_report_rows results = some rows →
      rows.Pairwise (fun a b => ∀ x y, scoreKey a = some x → scoreKey b = some y → y ≤ x)) ∧
    generate_report_rows
        [[("impact_score", JVal.num 3)], [("impact_score", JVal.num 9)],
         [("impact_score", JVal.num 0)], [("impact_score", JVal.num 7)]] =
      some [[("impact_score", JVal.num 9)], [("impact_score", JVal.num 7)],
        [("impact_score", JVal.num 3)], [("impact_score", JVal.num 0)]] := by
  constructor
  · intro results rows h
    unfold generate_report_rows at h
    by_cases he : results.isEmpty
    · rw [if_pos he] at h
      exact absurd h (by simp)
    · rw [if_neg he] at h
      by_cases hs : results.any (fun d => dictContains d "impact_score") = true
      · rw [if_pos hs] at h
        injection h with h
        subst h
        have hsorted : (List.insertionSort reportOrder results).Pairwise reportOrder :=
          List.sorted_insertionSort reportOrder results
        refine hsorted.imp ?_
        intro a b hab x y hx hy
        unfold reportOrder reportOrderB at hab
        rw [hx, hy] at hab
        simpa using hab
      · rw [if_neg hs] at h
        injection h with h
        subst h
        refine pairwise_score_of_none results fun d hd => scoreKey_eq_none d ?_
        have hall : results.any (fun d => dictContains d "impact_score") = false := by
          simpa using hs
        rw [List.any_eq_false] at hall
        simpa using hall d hd
  · decide

/-- Claim C6 witness: the sortedness statement applied to a concrete
one-record report. -/
theorem C6_witness :
    ([[("impact_score", JVal.num 2)]] : List Dict).Pairwise
      (fun a b => ∀ x y, scoreKey a = some x → scoreKey b = some y → y ≤ x) :=
  C6_report_sorted.1 [[("impact_score", JVal.num 2)]]
    [[("impact_score", JVal.num 2)]] (by decide)

/-! ## Claim C3 -/

/-- Store presence distributes over append. -/
theorem storeContains_append (a b : Store) (h : String) :
    storeContains (a ++ b) h = (storeContains a h || storeContains b h) := by
  induction a with
  | nil => simp [storeContains]
  | cons p rest ih =>
    by_cases hp : p.1 = h
    · simp [storeContains, hp]
    · simp [storeContains, hp, ih]

/-- `process_url` only ever appends to the store. -/
theorem process_url_store_append (urlHash : String → String)
    (download : String → Option String) (now : String) (st : RefinerState)
    (url source : String) :
    ∃ ds, (process_url urlHash download now st url source).store = st.store ++ ds := by
  unfold process_url
  by_cases h : storeContains st.store (urlHash url) = true
  · rw [if_pos h]
    exact ⟨[], (List.append_nil _).symm⟩
  · rw [if_neg h]
    cases download url with
    | none => exact ⟨[], (List.append_nil _).symm⟩
    | some content =>
      dsimp only
      by_cases hc : (content == "" || content.length < 50) = true
      · rw [if_pos hc]
        exact ⟨[], (List.append_nil _).symm⟩
      · rw [if_neg hc]
        exact ⟨[(urlHash url, ⟨source, url, now, content⟩)], rfl⟩

/-- One Refiner iteration only ever appends to the store. -/
theorem refinerStep_store_append (urlHash : String → String)
    (download : String → Option String) (now : String) (st : RefinerState)
    (row : SourceRow) :
    ∃ ds, (refinerStep urlHash download now st row).store = st.store ++ ds := by
  unfold refinerStep
  by_cases h1 : statusMatches row.notes = true
  · rw [if_pos h1]
    by_cases h2 : is_valid_url row.url = true
    · rw [if_pos h2]
      exact process_url_store_append urlHash download now st row.url row.sourceName
    · rw [if_neg h2]
      exact ⟨[], (List.append_nil _).symm⟩
  · rw [if_neg h1]
    exact ⟨[], (List.append_nil _).symm⟩

/-- A content address present in the store stays present through a run. -/
theorem runRefiner_store_mono (urlHash : String → String)
    (download : String → Option String) (now : String) (rows : List SourceRow) :
    ∀ st hsh, storeContains st.store hsh = true →
      storeContains (runRefiner urlHash download now rows st).store hsh = true := by
  induction rows with
  | nil =>
    intro st hsh h
    exact h
  | cons row rest ih =>
    intro st hsh h
    unfold runRefiner
    apply ih
    obtain ⟨ds, hds⟩ := refinerStep_store_append urlHash download now st row
    rw [hds, storeContains_append, h]
    rfl

/-- After one iteration on a selected row, the row's content address is
occupied or its download yields nothing persistable. -/
theorem refinerStep_establishes (urlHash : String → String)
    (download : String → Option String) (now : String) (st : RefinerState)
    (row : SourceRow)
    (hsel : (statusMatches row.notes && is_valid_url row.url) = true) :
    storeContains (refinerStep urlHash download now st row).store (urlHash row.url) = true ∨
      goodContent download row.url = false := by
  rw [Bool.and_eq_true] at hsel
  unfold refinerStep
  rw [if_pos hsel.1, if_pos hsel.2]
  unfold process_url
  by_cases h : storeContains st.store (urlHash row.url) = true
  · rw [if_pos h]
    exact Or.inl h
  · rw [if_neg h]
    cases hd : download row.url with
    | none =>
      right
      simp [goodContent, hd]
    | some content =>
      dsimp only
      by_cases hc : (content == "" || content.length < 50) = true
      · rw [if_pos hc]
        right
        simp [goodContent, hd, hc]
      · rw [if_neg hc]
        left
        simp [storeContains_append, storeContains]

/-- Processing a settled row leaves the store unchanged. -/
theorem refinerStep_store_frozen (urlHash : String → String)
    (download : String → Option String) (now : String) (st : RefinerState)
    (row : SourceRow)
    (hset : settledRow urlHash download st.store row) :
    (refinerStep urlHash download now st row).store = st.store := by
  unfold refinerStep
  by_cases h1 : statusMatches row.notes = true
  · rw [if_pos h1]
    by_cases h2 : is_valid_url row.url = true
    · rw [if_pos h2]
      have hsel : (statusMatches row.notes && is_valid_url row.url) = true := by
        rw [h1, h2]
        rfl
      unfold process_url
      by_cases h : storeContains st.store (urlHash row.url) = true
      · rw [if_pos h]
      · rw [if_neg h]
        rcases hset hsel with hc | hg
        · exact absurd hc h
        · unfold goodContent at hg
          cases hd : download row.url with
          | none => rfl
          | some content =>
            rw [hd] at hg
            dsimp only at hg ⊢
            cases hb : (content == "" || content.length < 50) with
            | false =>
              rw [hb] at hg
              simp at hg
            | true =>
              rfl
    · rw [if_neg h2]
  · rw [if_neg h1]

/-- A run over rows all settled for the current store leaves the store
unchanged. -/
theorem runRefiner_store_frozen (urlHash : String → String)
    (download : String → Option String) (now : String) (rows : List SourceRow) :
    ∀ st, (∀ row ∈ rows, settledRow urlHash download st.store row) →
      (runRefiner urlHash download now rows st).store = st.store := by
  induction rows with
  | nil =>
    intro st _
    rfl
  | cons row rest ih =>
    intro st hset
    unfold runRefiner
    have hstep : (refinerStep urlHash download now st row).store = st.store :=
      refinerStep_store_frozen urlHash download now st row (hset row (List.mem_cons_self _ _))
    have h2 : ∀ r ∈ rest,
        settledRow urlHash download (refinerStep urlHash download now st row).store r := by
      intro r hr
      rw [hstep]
      exact hset r (List.mem_cons_of_mem _ hr)
    rw [ih _ h2, hstep]

/-- After a full run, every row of the registry is settled for the
resulting store. -/
theorem runRefiner_settled (urlHash : String → String)
    (download : String → Option String) (now : String) (rows : List SourceRow) :
    ∀ st row, row ∈ rows →
      settledRow urlHash download (runRefiner urlHash download now rows st).store row := by
  induction rows with
  | nil =>
    intro st row h
    exact absurd h (List.not_mem_nil _)
  | cons r0 rest ih =>
    intro st row hmem
    rcases List.mem_cons.mp hmem with rfl | hr
    · intro hsel
      unfold runRefiner
      rcases refinerStep_establishes urlHash download now st row hsel with hc | hg
      · exact Or.inl (runRefiner_store_mono urlHash download now rest _ _ hc)
      · exact Or.inr hg
    · unfold runRefiner
      exact ih (refinerStep urlHash download now st r0) row hr

/-- Claim C3: when a URL's content address already holds a RawDocument,
`process_url` performs no download and returns the state unchanged (store
and download trace); consequently a second Refiner run over the unchanged
registry leaves the RawDocument set exactly as the first run left it. -/
theorem C3_refiner_idempotent (urlHash : String → String)
    (download : String → Option String) (now now2 : String)
    (rows : List SourceRow) (st : RefinerState) :
    (∀ url source s, storeContains s.store (urlHash url) = true →
      process_url urlHash download now s url source = s) ∧
    (∀ downloads2 : List String,
      (runRefiner urlHash download now2 rows
          ⟨(runRefiner urlHash download now rows st).store, downloads2⟩).store =
        (runRefiner urlHash download now rows st).store) := by
  constructor
  · intro url source s h
    unfold process_url
    rw [if_pos h]
  · intro downloads2
    apply runRefiner_store_frozen
    intro row hrow
    exact runRefiner_settled urlHash download now rows st row hrow

/-- Claim C3 witness: a store already holding the document of URL "u" is
returned untouched by `process_url`, and a run repeated on a one-row
registry adds nothing the second time. -/
theorem C3_witness :
    process_url (fun u => u) (fun _ => none) "T"
        ⟨[("u", ⟨"S", "u", "T0", "c"⟩)], []⟩ "u" "S" =
      ⟨[("u", ⟨"S", "u", "T0", "c"⟩)], []⟩ ∧
    (runRefiner (fun u => u)
        (fun _ => some (String.mk (List.replicate 60 'a'))) "T2"
        [⟨"S", "https://h/x", "[ts] Success - RSS OK: t"⟩]
        ⟨(runRefiner (fun u => u) (fun _ => some (String.mk (List.replicate 60 'a'))) "T"
            [⟨"S", "https://h/x", "[ts] Success - RSS OK: t"⟩] ⟨[], []⟩).store, []⟩).store =
      (runRefiner (fun u => u) (fun _ => some (String.mk (List.replicate 60 'a'))) "T"
          [⟨"S", "https://h/x", "[ts] Success - RSS OK: t"⟩] ⟨[], []⟩).store :=
  ⟨(C3_refiner_idempotent (fun u => u) (fun _ => none) "T" "T2" [] ⟨[], []⟩).1
      "u" "S" ⟨[("u", ⟨"S", "u", "T0", "c"⟩)], []⟩ (by decide),
   (C3_refiner_idempotent (fun u => u)
      (fun _ => some (String.mk (List.replicate 60 'a'))) "T" "T2"
      [⟨"S", "https://h/x", "[ts] Success - RSS OK: t"⟩] ⟨[], []⟩).2 []⟩

/-! ## Claim C4 -/

/-- A record found in the intelligence store is still found, unchanged,
after new records are appended. -/
theorem intelLookup_append_left (a b : IntelStore) (f : String) (r : Dict)
    (h : intelLookup a f = some r) : intelLookup (a ++ b) f = some r := by
  induction a with
  | nil => simp [intelLookup] at h
  | cons p rest ih =>
    by_cases hp : p.1 = f
    · simp only [intelLookup, if_pos hp] at h
      simpa [intelLookup, hp] using h
    · simp only [intelLookup, if_neg hp] at h
      simp only [List.cons_append, intelLookup, if_neg hp]
      exact ih h

/-- A record just appended for a filename is subsequently found. -/
theorem intelLookup_append_self (a : IntelStore) (f : String) (d : Dict) :
    intelLookup (a ++ [(f, d)]) f ≠ none := by
  induction a with
  | nil => simp [intelLookup]
  | cons p rest ih =>
    by_cases hp : p.1 = f
    · simp [intelLookup, hp]
    · simpa [intelLookup, hp] using ih

/-- One Analyst iteration only ever appends to the intelligence store. -/
theorem analystStep_intel_append (engine : String → Nat → Except String Dict)
    (now eng : String) (st : AnalystState) (file : String × Option Dict) :
    ∃ ds, (analystStep engine now eng st file).intel = st.intel ++ ds := by
  obtain ⟨fn, parsed⟩ := file
  unfold analystStep
  cases hl : intelLookup st.intel fn with
  | some rec => exact ⟨[], (List.append_nil _).symm⟩
  | none =>
    cases parsed with
    | none => exact ⟨[], (List.append_nil _).symm⟩
    | some data =>
      dsimp only
      by_cases hlen : (getContent data == "" || (getContent data).length < 100) = true
      · rw [if_pos hlen]
        exact ⟨[], (List.append_nil _).symm⟩
      · rw [if_neg hlen]
        by_cases hbl : isBlocked (getContent data) = true
        · rw [if_pos hbl]
          exact ⟨[], (List.append_nil _).symm⟩
        · rw [if_neg hbl]
          cases hok : (tenacityRetry (engine (getContent data)) 3).1 with
          | error e => exact ⟨[], (List.append_nil _).symm⟩
          | ok analysis =>
            dsimp only
            by_cases hreq : requiredKeys.all (fun k => dictContains analysis k) = true
            · rw [if_pos hreq]
              exact ⟨[(fn, mergeRecord data analysis now eng)], rfl⟩
            · rw [if_neg hreq]
              exact ⟨[(fn, mergeRecord data analysis now eng)], rfl⟩

/-- Settledness of a file survives appending further records. -/
theorem settledFile_mono (engine : String → Nat → Except String Dict)
    (a ds : IntelStore) (file : String × Option Dict)
    (h : settledFile engine a file) : settledFile engine (a ++ ds) file := by
  obtain ⟨fn, parsed⟩ := file
  cases parsed with
  | none => trivial
  | some data =>
    have hs : intelLookup a fn ≠ none ∨
        (getContent data == "" || (getContent data).length < 100) = true ∨
        isBlocked (getContent data) = true ∨
        engineFails engine (getContent data) = true := h
    show intelLookup (a ++ ds) fn ≠ none ∨
        (getContent data == "" || (getContent data).length < 100) = true ∨
        isBlocked (getContent data) = true ∨
        engineFails engine (getContent data) = true
    rcases hs with h1 | h2 | h3 | h4
    · left
      obtain ⟨r, hr⟩ := Option.ne_none_iff_exists'.mp h1
      rw [intelLookup_append_left a ds fn r hr]
      exact Option.some_ne_none r
    · exact Or.inr (Or.inl h2)
    · exact Or.inr (Or.inr (Or.inl h3))
    · exact Or.inr (Or.inr (Or.inr h4))

/-- After one iteration on a fresh file, the file is settled: its record
now exists, or a filter rejected it, or the engine failed on it. -/
theorem analystStep_establishes (engine : String → Nat → Except String Dict)
    (now eng : String) (st : AnalystState) (fn : String) (data : Dict) :
    settledFile engine (analystStep engine now eng st (fn, some data)).intel
      (fn, some data) := by
  show intelLookup (analystStep engine now eng st (fn, some data)).intel fn ≠ none ∨
      (getContent data == "" || (getContent data).length < 100) = true ∨
      isBlocked (getContent data) = true ∨
      engineFails engine (getContent data) = true
  unfold analystStep
  cases hl : intelLookup st.intel fn with
  | some rec =>
    left
    dsimp only
    rw [hl]
    exact Option.some_ne_none rec
  | none =>
    dsimp only
    by_cases hlen : (getContent data == "" || (getContent data).length < 100) = true
    · exact Or.inr (Or.inl hlen)
    · by_cases hbl : isBlocked (getContent data) = true
      · exact Or.inr (Or.inr (Or.inl hbl))
      · rw [if_neg hlen, if_neg hbl]
        cases hok : (tenacityRetry (engine (getContent data)) 3).1 with
        | error e =>
          exact Or.inr (Or.inr (Or.inr (by simp [engineFails, hok])))
        | ok analysis =>
          left
          dsimp only
          by_cases hreq : requiredKeys.all (fun k => dictContains analysis k) = true
          · rw [if_pos hreq]
            exact intelLookup_append_self st.intel fn (mergeRecord data analysis now eng)
          · rw [if_neg hreq]
            exact intelLookup_append_self st.intel fn (mergeRecord data analysis now eng)

/-- Processing a settled file leaves the intelligence store unchanged. -/
theorem analystStep_intel_frozen (engine : String → Nat → Except String Dict)
    (now eng : String) (st : AnalystState) (file : String × Option Dict)
    (hset : settledFile engine st.intel file) :
    (analystStep engine now eng st file).intel = st.intel := by
  obtain ⟨fn, parsed⟩ := file
  unfold analystStep
  cases hl : intelLookup st.intel fn with
  | some rec => rfl
  | none =>
    cases parsed with
    | none => rfl
    | some data =>
      have hs : intelLookup st.intel fn ≠ none ∨
          (getContent data == "" || (getContent data).length < 100) = true ∨
          isBlocked (getContent data) = true ∨
          engineFails engine (getContent data) = true := hset
      dsimp only
      by_cases hlen : (getContent data == "" || (getContent data).length < 100) = true
      · rw [if_pos hlen]
      · rw [if_neg hlen]
        by_cases hbl : isBlocked (getContent data) = true
        · rw [if_pos hbl]
        · rw [if_neg hbl]
          rcases hs with h1 | h2 | h3 | h4
          · exact absurd hl h1
          · exact absurd h2 hlen
          · exact absurd h3 hbl
          · unfold engineFails at h4
            cases hok : (tenacityRetry (engine (getContent data)) 3).1 with
            | error e => rfl
            | ok analysis =>
              rw [hok] at h4
              simp at h4

/-- The Analyst loop only ever appends to the intelligence store. -/
theorem analystFold_intel_append (engine : String → Nat → Except String Dict)
    (now eng : String) (files : List (String × Option Dict)) :
    ∀ st, ∃ ds, (analystFold engine now eng files st).intel = st.intel ++ ds := by
  induction files with
  | nil =>
    intro st
    exact ⟨[], (List.append_nil _).symm⟩
  | cons f rest ih =>
    intro st
    unfold analystFold
    obtain ⟨ds1, h1⟩ := analystStep_intel_append engine now eng st f
    obtain ⟨ds2, h2⟩ := ih (analystStep engine now eng st f)
    exact ⟨ds1 ++ ds2, by rw [h2, h1, List.append_assoc]⟩

/-- After a full Analyst pass, every input file is settled for the
resulting intelligence store. -/
theorem analystFold_settled (engine : String → Nat → Except String Dict)
    (now eng : String) (files : List (String × Option Dict)) :
    ∀ st file, file ∈ files →
      settledFile engine (analystFold engine now eng files st).intel file := by
  induction files with
  | nil =>
    intro st file h
    exact absurd h (List.not_mem_nil _)
  | cons f0 rest ih =>
    intro st file hmem
    rcases List.mem_cons.mp hmem with rfl | hr
    · unfold analystFold
      obtain ⟨fn, parsed⟩ := file
      cases parsed with
      | none => trivial
      | some data =>
        obtain ⟨ds, hds⟩ := analystFold_intel_append engine now eng rest
          (analystStep engine now eng st (fn, some data))
        rw [hds]
        exact settledFile_mono engine _ ds _
          (analystStep_establishes engine now eng st fn data)
    · unfold analystFold
      exact ih (analystStep engine now eng st f0) file hr

/-- A pass over files all settled for the current store leaves the store
unchanged. -/
theorem analystFold_intel_frozen (engine : String → Nat → Except String Dict)
    (now eng : String) (files : List (String × Option Dict)) :
    ∀ st, (∀ file ∈ files, settledFile engine st.intel file) →
      (analystFold engine now eng files st).intel = st.intel := by
  induction files with
  | nil =>
    intro st _
    rfl
  | cons f rest ih =>
    intro st hset
    unfold analystFold
    have hstep : (analystStep engine now eng st f).intel = st.intel :=
      analystStep_intel_frozen engine now eng st f (hset f (List.mem_cons_self _ _))
    have h2 : ∀ g ∈ rest, settledFile engine (analystStep engine now eng st f).intel g := by
      intro g hg
      rw [hstep]
      exact hset g (List.mem_cons_of_mem _ hg)
    rw [ih _ h2, hstep]

/-- Claim C4: a raw document whose classification record already exists at
the same content address is loaded and reused â the step leaves the
record store and the engine-call trace untouched, only appending the
existing record to the in-memory results â and a second Analyst run over
unchanged raw documents produces exactly the record set of the first. -/
theorem C4_analyst_idempotent (engine : String → Nat → Except String Dict)
    (now now2 eng eng2 : String) (files : List (String × Option Dict))
    (intel0 : IntelStore) :
    (∀ st filename parsed rec, intelLookup st.intel filename = some rec →
      analystStep engine now eng st (filename, parsed) =
        { st with results := st.results ++ [rec] }) ∧
    (analystRun engine now2 eng2 files
        (analystRun engine now eng files intel0).intel).intel =
      (analystRun engine now eng files intel0).intel := by
  constructor
  · intro st filename parsed rec h
    unfold analystStep
    dsimp only
    rw [h]
  · unfold analystRun
    apply analystFold_intel_frozen
    intro file hfile
    exact analystFold_settled engine now eng files ⟨intel0, [], [], []⟩ file hfile

/-- Claim C4 witness: a file whose record exists is reused verbatim with
no engine call and no store write. -/
theorem C4_witness :
    analystStep (fun _ _ => Except.ok []) "T" "MOCK"
        ⟨[("f.json", [("summary", JVal.str "s")])], [], [], []⟩ ("f.json", none) =
      { intel := [("f.json", [("summary", JVal.str "s")])], engineCalls := [],
        warnings := [], results := [[("summary", JVal.str "s")]] } := by
  have h := (C4_analyst_idempotent (fun _ _ => Except.ok []) "T" "T2" "MOCK" "MOCK2"
      [] []).1 ⟨[("f.json", [("summary", JVal.str "s")])], [], [], []⟩ "f.json" none
      [("summary", JVal.str "s")] (by decide)
  simpa using h

/-! ## Claim C7 -/

/-- A row at a five-multiple index, reached before any fatal failure and
carrying a URL, leaves a processed-then-checkpoint pair in the loop's
event trace. -/
theorem harvestLoop_checkpoint (fetch : Nat → Nat → Except String String)
    (ts : String) (failAt : Option Nat) :
    ∀ (rest : List HRow) (j p : Nat) (row : HRow),
      rest[p]? = some row → row.url ≠ "" → (j + p) % 5 = 0 →
      (∀ k, failAt = some k → j + p < k) →
      List.IsInfix [HEvent.processed (j + p), HEvent.checkpoint]
        (harvestLoop fetch ts failAt rest j).2.1 := by
  intro rest
  induction rest with
  | nil =>
    intro j p row hrow
    simp at hrow
  | cons r0 rest' ih =>
    intro j p row hrow hurl hmod hfail
    have hne : ¬ failAt = some j := by
      intro hfa
      have := hfail j hfa
      omega
    unfold harvestLoop
    rw [if_neg hne]
    cases p with
    | zero =>
      simp only [List.getElem?_cons_zero, Option.some.injEq] at hrow
      subst hrow
      rw [if_neg hurl]
      dsimp only
      have hj : j % 5 = 0 := by simpa using hmod
      rw [hj]
      exact ⟨[], (harvestLoop fetch ts failAt rest' (j + 1)).2.1, by simp⟩
    | succ q =>
      simp only [List.getElem?_cons_succ] at hrow
      have he : j + (q + 1) = (j + 1) + q := by omega
      rw [he] at hmod hfail ⊢
      by_cases hu : r0.url = ""
      · rw [if_pos hu]
        exact ih (j + 1) q row hrow hurl hmod hfail
      · rw [if_neg hu]
        dsimp only
        obtain ⟨s, t, hst⟩ := ih (j + 1) q row hrow hurl hmod hfail
        exact ⟨HEvent.processed j ::
            ((if j % 5 == 0 then [HEvent.checkpoint] else []) ++ s), t, by
          simp [hst, List.append_assoc]⟩

/-- Claim C7: every Harvester run — including one whose loop exits by an
exception at any row — ends its event trace with the browser teardown
immediately followed by the unconditional registry save, and every
URL-carrying row at a five-multiple index reached before the failure
point is immediately followed by a mid-run checkpoint of the registry. -/
theorem C7_checkpoint_and_teardown (fetch : Nat → Nat → Except String String)
    (ts : String) (failAt : Option Nat) (rows : List HRow) :
    (∃ pre, (harvesterRun fetch ts failAt rows).2.1 =
      pre ++ [HEvent.browserStop, HEvent.finalSave]) ∧
    (∀ i row, rows[i]? = some row → row.url ≠ "" → i % 5 = 0 →
      (∀ k, failAt = some k → i < k) →
      List.IsInfix [HEvent.processed i, HEvent.checkpoint]
        (harvesterRun fetch ts failAt rows).2.1) := by
  constructor
  · exact ⟨(harvestLoop fetch ts failAt rows 0).2.1, rfl⟩
  · intro i row hrow hurl hmod hfail
    have h := harvestLoop_checkpoint fetch ts failAt rows 0 i row hrow hurl
      (by simpa using hmod) (by
        intro k hk
        have := hfail k hk
        omega)
    have h2 : List.IsInfix [HEvent.processed i, HEvent.checkpoint]
        (harvestLoop fetch ts failAt rows 0).2.1 := by simpa using h
    obtain ⟨s, t, hst⟩ := h2
    refine ⟨s, t ++ [HEvent.browserStop, HEvent.finalSave], ?_⟩
    unfold harvesterRun
    dsimp only
    rw [← hst]
    simp

/-- Claim C7 witness: a one-row rss registry processes row 0, checkpoints
immediately after it, and the trace ends with browser stop then the final
save. -/
theorem C7_witness :
    (∃ pre, (harvesterRun (fun _ _ => Except.ok "T") "ts" none
        [⟨"A", "http://x/", "rss"⟩]).2.1 =
      pre ++ [HEvent.browserStop, HEvent.finalSave]) ∧
    List.IsInfix [HEvent.processed 0, HEvent.checkpoint]
      (harvesterRun (fun _ _ => Except.ok "T") "ts" none
        [⟨"A", "http://x/", "rss"⟩]).2.1 :=
  ⟨(C7_checkpoint_and_teardown (fun _ _ => Except.ok "T") "ts" none
      [⟨"A", "http://x/", "rss"⟩]).1,
   (C7_checkpoint_and_teardown (fun _ _ => Except.ok "T") "ts" none
      [⟨"A", "http://x/", "rss"⟩]).2 0 ⟨"A", "http://x/", "rss"⟩ rfl
     (by decide) rfl (fun k hk => Option.noConfusion hk)⟩

end Regulink
